import Mathlib

/-!
Verification of the metaboliq-qwen-agent context-metabolism kernel and its
shape-aware file toolkit.

The development shallowly embeds the relevant Python source files:
  * `qwen_agent/tools/shape_tools.py` (describe_file / extract_section /
    replace_section and their helpers),
  * `qwen_agent/tools/shape_handlers/common.py` (paginate_list / paginate_text),
  * `qwen_agent/agents/metaboliq_agent.py` (KernelState and _truncate_content),
  * `qwen_agent/tools/erase.py` (EraseTool.call).

Python values loaded from JSON files are embedded as `JValue`; Python `str` is
embedded as Lean `String` whose `data` list of characters plays the role of the
sequence of code points; Python `int` as `Int`; object identity (`id(msg)`) as
an explicit `msgId : Nat` field, with fresh identities drawn from an explicit
`nextId` counter.  Fallible Python code (statements that may raise) is embedded
with `Option` or with an explicit error constructor carrying the message of the
`raise` statement where the source spells one out.
-/

namespace Metaboliq

/-! ## Python sequence indexing

`pyIdx n i` is the index arithmetic of Python sequence subscription: negative
indices count from the end, and out-of-range access raises (here: `none`). -/

def pyIdx (n : Nat) (i : Int) : Option Nat :=
  let j : Int := if i < 0 then i + n else i
  if 0 ≤ j ∧ j < n then some j.toNat else none

def pyListGet {α : Type} (xs : List α) (i : Int) : Option α :=
  (pyIdx xs.length i).bind fun j => xs.get? j

def pyListSet {α : Type} (xs : List α) (i : Int) (a : α) : Option (List α) :=
  (pyIdx xs.length i).map fun j => xs.set j a



/-! ## JSON data model

`JValue` embeds the values produced by `json.loads` / `yaml.safe_load` in the
source: null, booleans, integers, strings, arrays, objects with string keys in
insertion order.  Floats never appear in any property considered here and are
outside the model. -/

inductive JValue where
  | null
  | bool (b : Bool)
  | num (n : Int)
  | str (s : String)
  | arr (xs : List JValue)
  | obj (kvs : List (String × JValue))

/-! ## `json.dumps(..., ensure_ascii=True)` with default separators -/

def hexDigit (n : Nat) : Char :=
  if n < 10 then Char.ofNat (48 + n) else Char.ofNat (87 + n)

def hex4 (n : Nat) : List Char :=
  [hexDigit (n / 4096 % 16), hexDigit (n / 256 % 16), hexDigit (n / 16 % 16), hexDigit (n % 16)]

def jsonEscapeChar (c : Char) : List Char :=
  if c = '"' then ['\\', '"']
  else if c = '\\' then ['\\', '\\']
  else if c = '\n' then ['\\', 'n']
  else if c = '\r' then ['\\', 'r']
  else if c = '\t' then ['\\', 't']
  else if c = Char.ofNat 8 then ['\\', 'b']
  else if c = Char.ofNat 12 then ['\\', 'f']
  else if 32 ≤ c.toNat ∧ c.toNat ≤ 126 then [c]
  else if c.toNat ≤ 65535 then '\\' :: 'u' :: hex4 c.toNat
  else
    let n := c.toNat - 65536
    ('\\' :: 'u' :: hex4 (55296 + n / 1024)) ++ ('\\' :: 'u' :: hex4 (56320 + n % 1024))

def jsonQuote (s : String) : String :=
  String.mk ('"' :: (s.data.flatMap jsonEscapeChar) ++ ['"'])

mutual

def jsonDumps : JValue → String
  | .null => "null"
  | .bool true => "true"
  | .bool false => "false"
  | .num n => toString n
  | .str s => jsonQuote s
  | .arr xs => "[" ++ String.intercalate ", " (jsonDumpsList xs) ++ "]"
  | .obj kvs => "\x7b" ++ String.intercalate ", " (jsonDumpsObj kvs) ++ "\x7d"

def jsonDumpsList : List JValue → List String
  | [] => []
  | v :: rest => jsonDumps v :: jsonDumpsList rest

def jsonDumpsObj : List (String × JValue) → List String
  | [] => []
  | (k, v) :: rest => (jsonQuote k ++ ": " ++ jsonDumps v) :: jsonDumpsObj rest

end

/-- Model of `_safe_json_size` in `shape_tools.py`: the length of the serialized value
(`json.dumps` never fails on the values of the model, so the `except` branch
of the source is unreachable here). -/
def safe_json_size (v : JValue) : Nat :=
  (jsonDumps v).data.length

/-! ## Pagination (`shape_handlers/common.py`, duplicated as
`shape_tools._paginate_list` / `shape_tools._paginate_text`) -/

structure Paged (α : Type) where
  items : List α
  page : Int
  pageSize : Int
  total : Nat
  truncated : Bool
  nextPage : Option Int
deriving DecidableEq, Repr

def paginate_list {α : Type} (items : List α) (page pageSize : Int) : Paged α :=
  let page := if page < 1 then 1 else page
  let ps := if pageSize < 1 then 50 else pageSize
  let total := items.length
  let start := (page - 1) * ps
  let stop := start + ps
  let sliced := (items.drop start.toNat).take ps.toNat
  { items := sliced
    page := page
    pageSize := ps
    total := total
    truncated := decide (stop < (total : Int))
    nextPage := if stop < (total : Int) then some (page + 1) else none }

/-- Python `str.splitlines()` line-boundary characters. -/
def isLineBreak (c : Char) : Bool :=
  c = '\n' ∨ c = '\r' ∨ c = Char.ofNat 11 ∨ c = Char.ofNat 12 ∨
  c = Char.ofNat 28 ∨ c = Char.ofNat 29 ∨ c = Char.ofNat 30 ∨
  c = Char.ofNat 133 ∨ c = Char.ofNat 8232 ∨ c = Char.ofNat 8233

def splitlinesAux : List Char → List Char → List (List Char)
  | [], acc => if acc.isEmpty then [] else [acc.reverse]
  | '\r' :: '\n' :: rest, acc => acc.reverse :: splitlinesAux rest []
  | c :: rest, acc =>
    if isLineBreak c then acc.reverse :: splitlinesAux rest []
    else splitlinesAux rest (c :: acc)

def pySplitlines (s : String) : List String :=
  (splitlinesAux s.data []).map String.mk

structure PagedText where
  text : String
  page : Int
  pageSize : Int
  total : Nat
  truncated : Bool
  nextPage : Option Int
deriving DecidableEq, Repr

def paginate_text (text : String) (page pageSize : Int) : PagedText :=
  let pi := paginate_list (pySplitlines text) page pageSize
  { text := String.intercalate "\n" pi.items
    page := pi.page
    pageSize := pi.pageSize
    total := pi.total
    truncated := pi.truncated
    nextPage := pi.nextPage }

/-! ## Map selectors

A selector reaching `ExtractSection.call` / `ReplaceSection.call` is the
JSON-decoded tool argument: either a string or a list whose elements are
strings or integers. -/

inductive JKey where
  | str (s : String)
  | int (i : Int)
deriving DecidableEq, Repr

inductive PySel where
  | str (s : String)
  | list (path : List JKey)

/-- First binding of a key in an object, as Python dict lookup (objects coming
from `json.loads` have unique string keys, so "first" is exact). -/
def lookupFirst : List (String × JValue) → String → Option JValue
  | [], _ => none
  | (k0, v0) :: rest, k => if k0 = k then some v0 else lookupFirst rest k

/-- One Python subscription step `obj[key]`, `none` when the source raises
(`KeyError`/`IndexError`/`TypeError`).  Subscribing a string with an integer
yields a one-character string, as in Python. -/
def jIndex : JValue → JKey → Option JValue
  | .obj kvs, .str k => lookupFirst kvs k
  | .arr xs, .int i => pyListGet xs i
  | .str s, .int i => (pyListGet s.data i).map fun c => JValue.str (String.mk [c])
  | _, _ => none

/-- The traversal `for key in selector: obj = obj[key]` of
`ExtractSection.call` (map branch). -/
def getPath : JValue → List JKey → Option JValue
  | v, [] => some v
  | v, k :: rest => (jIndex v k).bind fun c => getPath c rest

/-- Python dict assignment `d[k] = v`: update the existing binding, else append
a new one (insertion order). -/
def setKey : List (String × JValue) → String → JValue → List (String × JValue)
  | [], k, v => [(k, v)]
  | (k0, v0) :: rest, k, v =>
    if k0 = k then (k, v) :: rest else (k0, v0) :: setKey rest k v

/-- The final assignment `obj[selector[-1]] = value` of `ReplaceSection.call`
(map branch).  Assigning into a list needs an in-range integer index; an
integer key on an object and any write into a scalar raise in all cases
relevant here (Python would accept an integer key on a dict, but `json.dumps`
then stores it as a string, a shape `json.loads` never produces and which the
string-keyed `JValue.obj` therefore does not model). -/
def setLeaf : JValue → JKey → JValue → Option JValue
  | .obj kvs, .str k, v => some (.obj (setKey kvs k v))
  | .arr xs, .int i, v => (pyListSet xs i v).map .arr
  | _, _, _ => none

/-- Write back an updated child at a position where `jIndex` just succeeded. -/
def setChildAt : JValue → JKey → JValue → Option JValue
  | .obj kvs, .str k, c => some (.obj (setKey kvs k c))
  | .arr xs, .int i, c => (pyListSet xs i c).map .arr
  | _, _, _ => none

/-- The mutation of `ReplaceSection.call` (map branch): traverse all but the
last selector segment, then assign the leaf.  An empty selector raises
(`selector[-1]` on an empty list). -/
def setPath : JValue → List JKey → JValue → Option JValue
  | _, [], _ => none
  | d, [k], v => setLeaf d k v
  | d, k :: k2 :: rest, v =>
    (jIndex d k).bind fun c =>
      (setPath c (k2 :: rest) v).bind fun c2 => setChildAt d k c2



/-! ## Extension detection (`_detect_kind` with `os.path.splitext(...)[1].lower()`) -/

/-- Index of the last occurrence of `c`, or `-1` (as in CPython, sep/dot
indices are compared as integers with `-1` standing for "absent"). -/
def lastIdxInt (cs : List Char) (c : Char) : Int :=
  ((cs.enum.filter fun p => p.2 = c).map fun p => (p.1 : Int)).foldl max (-1)

/-- Python `os.path.splitext(path)[1]` on POSIX: the suffix starting at the last dot
of the basename, unless all characters of the basename before that dot are
dots themselves (leading dots carry no extension). -/
def splitextExt (path : String) : String :=
  let cs := path.data
  let sepI := lastIdxInt cs '/'
  let dotI := lastIdxInt cs '.'
  if sepI < dotI then
    if cs.enum.any (fun p => decide (sepI < (p.1 : Int) ∧ (p.1 : Int) < dotI ∧ p.2 ≠ '.')) then
      String.mk (cs.drop dotI.toNat)
    else ""
  else ""

/-- ASCII case of `str.lower()`; extensions are ASCII. -/
def asciiLower (c : Char) : Char :=
  if 65 ≤ c.toNat ∧ c.toNat ≤ 90 then Char.ofNat (c.toNat + 32) else c

def extLower (path : String) : String :=
  String.mk ((splitextExt path).data.map asciiLower)

def detect_kind (path : String) : String :=
  let ext := extLower path
  if ext = ".py" then "tree"
  else if ext = ".json" ∨ ext = ".yaml" ∨ ext = ".yml" then "map"
  else if ext = ".csv" ∨ ext = ".tsv" then "table"
  else "blob"

/-! ## File contents as seen by the tools

The tools reopen and parse the file inside each call; the model is handed the
parsed form matching the detected kind (`.treeData` abstracts the
`ast.parse` view of a `.py` file: the top-level `FunctionDef`/`ClassDef` nodes
with their line spans and `ast.get_source_segment` texts; `.tableData` is the
`csv.reader` view used when pandas is absent; `.blobData` is the byte length
and hex digest the blob branch computes). -/

structure PyDecl where
  isClass : Bool
  name : String
  lineno : Nat
  endLineno : Nat
  segment : String

structure PySource where
  text : String
  decls : List PyDecl

inductive FileData where
  | mapData (v : JValue)
  | treeData (src : PySource)
  | tableData (header : List String) (rows : List (List String))
  | blobData (size : Nat) (sha256 : String)

/-! ## Tool results

`raised msg` embeds a Python exception escaping the tool `call`; `msg` is the
message of the source's `raise` statement where it spells one out, and a short
descriptor for exceptions Python raises implicitly (their exact rendering is
irrelevant to every property below).  `kindMismatch` is a totality artifact of
handing the model parsed file contents: it is unreachable when the content
matches the detected kind. -/

inductive SelOut where
  | whole (v : JValue)
  | pagedKeys (p : Paged String) (note : Option String)
  | pagedList (p : Paged JValue) (note : Option String)
  | pagedText (p : PagedText) (note : Option String)
  | raised (msg : String)
  | kindMismatch

inductive RepOut where
  | changedMap (newData : JValue)
  | changedTree (newText : String)
  | changedTable (header : List String) (rows : List (List String))
  | raised (msg : String)
  | outsideModel (what : String)
  | kindMismatch

inductive DescribeOut where
  | treeOutline (functions classes : List String)
  | mapOutline (p : Paged String) (note : Option String)
  | mapListOutline (length : Nat)
  | mapScalarOutline (typeName : String)
  | tableOutline (rowCount : Nat) (columns : List String) (head : Paged (List String)) (note : String)
  | blobOutline (size : Nat) (sha256 : String)
  | kindMismatch

/-! ## Tree (`.py`) handling: `_outline_tree`, `_select_tree`, `_replace_tree` -/

def splitOnce (s : String) (sep : Char) : Option (String × String) :=
  let pre := s.data.takeWhile fun c => c ≠ sep
  if pre.length = s.data.length then none
  else some (String.mk pre, String.mk (s.data.drop (pre.length + 1)))

def declMatches (kind name : String) (d : PyDecl) : Bool :=
  ((kind = "function" ∧ d.isClass = false) ∨ (kind = "class" ∧ d.isClass = true)) ∧ d.name = name

def select_tree (src : PySource) (sel : String) : Except String String :=
  match splitOnce sel ':' with
  | none => .error "not enough values to unpack (expected 2, got 1)"
  | some (kind, name) =>
    match src.decls.find? (declMatches kind name) with
    | some d => .ok d.segment
    | none => .error (sel ++ " not found")

def splitKeepsAux : List Char → List Char → List (List Char)
  | [], acc => if acc.isEmpty then [] else [acc.reverse]
  | '\r' :: '\n' :: rest, acc => (acc.reverse ++ ['\r', '\n']) :: splitKeepsAux rest []
  | c :: rest, acc =>
    if isLineBreak c then (acc.reverse ++ [c]) :: splitKeepsAux rest []
    else splitKeepsAux rest (c :: acc)

def pySplitlinesKeepends (s : String) : List String :=
  (splitKeepsAux s.data []).map String.mk

def replace_tree (src : PySource) (sel : String) (value : String) : Except String String :=
  match splitOnce sel ':' with
  | none => .error "not enough values to unpack (expected 2, got 1)"
  | some (kind, name) =>
    match src.decls.find? (declMatches kind name) with
    | some d =>
      let start := d.lineno - 1
      let stop := if d.endLineno = 0 then d.lineno else d.endLineno
      let lines := pySplitlinesKeepends src.text
      let replacement := if value.data.getLast? = some '\n' then value else value ++ "\n"
      .ok (String.join (lines.take start) ++ replacement ++ String.join (lines.drop stop))
    | none => .error (sel ++ " not found")

/-! ## Table (`.csv`/`.tsv`) handling, csv fallback branch (`pd is None`) -/

def colIndex (header : List String) (cn : String) : Option Nat :=
  (header.enum.find? fun p => p.2 = cn).map fun p => p.1

def extract_table (header : List String) (rows : List (List String)) (sel : PySel) :
    Except String String :=
  match sel with
  | .list [r, c] =>
    match r with
    | .str _ => .error "list indices must be integers"
    | .int ri =>
      let col : Except String Int :=
        match c with
        | .int ci => .ok ci
        | .str cn =>
          match colIndex header cn with
          | some i => .ok (i : Int)
          | none => .error (cn ++ " is not in list")
      match col with
      | .error m => .error m
      | .ok ci =>
        match pyListGet rows ri with
        | none => .error "list index out of range"
        | some rowList =>
          match pyListGet rowList ci with
          | some cell => .ok cell
          | none => .error "list index out of range"
  | _ => .error "Table selector must be [row_index, column]"

/-- Python `str()` of a scalar JSON value, as `csv.writer` renders cells. -/
def pyScalarStr : JValue → Option String
  | .str s => some s
  | .num n => some (toString n)
  | .bool true => some "True"
  | .bool false => some "False"
  | .null => some "None"
  | _ => none

def replace_table (header : List String) (rows : List (List String)) (sel : PySel)
    (value : JValue) : RepOut :=
  match sel with
  | .list [r, c] =>
    match r with
    | .str _ => .raised "list indices must be integers"
    | .int ri =>
      let col : Except String Int :=
        match c with
        | .int ci => .ok ci
        | .str cn =>
          match colIndex header cn with
          | some i => .ok (i : Int)
          | none => .error (cn ++ " is not in list")
      match col with
      | .error m => .raised m
      | .ok ci =>
        match pyListGet rows ri with
        | none => .raised "list index out of range"
        | some rowList =>
          match pyScalarStr value with
          | none => .outsideModel "container-valued table cells"
          | some sv =>
            match pyListSet rowList ci sv with
            | none => .raised "list index out of range"
            | some rowList' =>
              match pyListSet rows ri rowList' with
              | some rows' => .changedTable header rows'
              | none => .raised "list index out of range"
  | _ => .raised "Table selector must be [row_index, column]"

/-! ## Map (`.json`/`.yaml`/`.yml`) handling

The branch bodies of `ExtractSection.call` / `ReplaceSection.call` for
`kind == 'map'`; `shape_handlers/map.py` implements the same logic for its
`MapLikeHandler.select` / `.replace` (with the traversal exceptions re-raised
as `KeyError`), so every statement below about these functions applies to both
copies. -/

def extract_section_map (data : JValue) (sel : PySel) (page pageSize : Int) : SelOut :=
  match sel with
  | .str _ => .raised "Map selector must be a list path"
  | .list p =>
    match getPath data p with
    | none => .raised "key or index not found"
    | some obj =>
      match obj with
      | .obj kvs =>
        let keys := kvs.map Prod.fst
        if (keys.length : Int) ≤ pageSize ∧ (safe_json_size obj : Int) ≤ 4000 then .whole obj
        else
          let pi := paginate_list keys page pageSize
          .pagedKeys pi (if pi.truncated then
            some ("Keys truncated. Call extract_section with page=" ++ toString (pi.page + 1) ++
              " to continue, or select a deeper path.") else none)
      | .arr xs =>
        if (xs.length : Int) ≤ pageSize ∧ (safe_json_size obj : Int) ≤ 4000 then .whole obj
        else
          let pi := paginate_list xs page pageSize
          .pagedList pi (if pi.truncated then
            some ("List truncated. Call extract_section with page=" ++ toString (pi.page + 1) ++
              " to continue.") else none)
      | .str sv =>
        let pt := paginate_text sv page pageSize
        .pagedText pt (if pt.truncated then
          some ("Text truncated. Call extract_section with page=" ++ toString (pt.page + 1) ++
            " to continue.") else none)
      | _ => .whole obj

def replace_section_map (data : JValue) (sel : PySel) (value : JValue) : RepOut :=
  match sel with
  | .str _ => .raised "Map selector must be a list path"
  | .list p =>
    match setPath data p value with
    | none => .raised "key or index not found"
    | some d' => .changedMap d'

/-! ## The three registered tools, dispatching on the detected kind -/

def describe_file_call (path : String) (file : FileData) (page pageSize : Int) : DescribeOut :=
  let kind := detect_kind path
  if kind = "tree" then
    match file with
    | .treeData src =>
      .treeOutline ((src.decls.filter fun d => !d.isClass).map PyDecl.name)
        ((src.decls.filter fun d => d.isClass).map PyDecl.name)
    | _ => .kindMismatch
  else if kind = "map" then
    match file with
    | .mapData d =>
      match d with
      | .obj kvs =>
        let pi := paginate_list (kvs.map Prod.fst) page pageSize
        .mapOutline pi (if pi.truncated then
          some ("Keys truncated. Call describe_file with page=" ++ toString (pi.page + 1) ++
            " to continue.") else none)
      | .arr xs => .mapListOutline xs.length
      | .null => .mapScalarOutline "NoneType"
      | .bool _ => .mapScalarOutline "bool"
      | .num _ => .mapScalarOutline "int"
      | .str _ => .mapScalarOutline "str"
    | _ => .kindMismatch
  else if kind = "table" then
    match file with
    | .tableData header rows =>
      let pi := paginate_list rows page pageSize
      .tableOutline rows.length header pi
        (if pi.truncated then
          "Rows truncated. Call describe_file with page=" ++ toString (pi.page + 1) ++
            " to continue." else "")
    | _ => .kindMismatch
  else
    match file with
    | .blobData n h => .blobOutline n h
    | _ => .kindMismatch

def extract_section_call (path : String) (file : FileData) (sel : PySel) (page pageSize : Int) :
    SelOut :=
  let kind := detect_kind path
  if kind = "tree" then
    match file with
    | .treeData src =>
      match sel with
      | .str s =>
        match select_tree src s with
        | .ok text =>
          let pt := paginate_text text page pageSize
          .pagedText pt (if pt.truncated then
            some ("Text truncated. Call extract_section with page=" ++ toString (pt.page + 1) ++
              " to continue.") else none)
        | .error m => .raised m
      | _ => .raised "Tree selector must be \"function:<name>\" or \"class:<name>\""
    | _ => .kindMismatch
  else if kind = "map" then
    match file with
    | .mapData d => extract_section_map d sel page pageSize
    | _ => .kindMismatch
  else if kind = "table" then
    match file with
    | .tableData h r =>
      match extract_table h r sel with
      | .ok cell => .whole (.str cell)
      | .error m => .raised m
    | _ => .kindMismatch
  else .raised "select not supported for blob"

def replace_section_call (path : String) (file : FileData) (sel : PySel) (value : JValue) :
    RepOut :=
  let kind := detect_kind path
  if kind = "tree" then
    match file with
    | .treeData src =>
      match sel with
      | .str s =>
        match value with
        | .str v =>
          match replace_tree src s v with
          | .ok t => .changedTree t
          | .error m => .raised m
        | _ => .raised "Tree replacement value must be source code"
      | _ => .raised "Tree selector must be \"function:<name>\" or \"class:<name>\""
    | _ => .kindMismatch
  else if kind = "map" then
    match file with
    | .mapData d => replace_section_map d sel value
    | _ => .kindMismatch
  else if kind = "table" then
    match file with
    | .tableData h r => replace_table h r sel value
    | _ => .kindMismatch
  else .raised "replace not supported for blob"

/-- Condition under which the map branch returns a selected value whole
(`{'kind': 'map', 'value': obj}` with no pagination): non-container scalars
always; objects and arrays when they fit both caps; strings never (they go
through `_paginate_text`). -/
def returnedWhole (v : JValue) (pageSize : Int) : Bool :=
  match v with
  | .obj kvs => decide ((kvs.length : Int) ≤ pageSize ∧ (safe_json_size (.obj kvs) : Int) ≤ 4000)
  | .arr xs => decide ((xs.length : Int) ≤ pageSize ∧ (safe_json_size (.arr xs) : Int) ≤ 4000)
  | .str _ => false
  | _ => true

/-! ## Messages (`qwen_agent/llm/schema.py`, external collaborator)

`Message` is a plain record of role, content and optional tool name; CPython
object identity (`id(msg)`) is embedded as an explicit `msgId` field, fresh
identities being drawn from the kernel's `nextId` counter when the kernel
itself constructs a message. -/

inductive Role where
  | system
  | user
  | assistant
  | function
deriving DecidableEq, Repr

def roleToString : Role → String
  | .system => "system"
  | .user => "user"
  | .assistant => "assistant"
  | .function => "function"

structure CItem where
  text : Option String
  image : Option String
deriving DecidableEq, Repr

inductive MContent where
  | str (s : String)
  | items (xs : List CItem)
  | dict (j : JValue)

structure Message where
  msgId : Nat
  role : Role
  content : MContent
  name : Option String

/-! ## Kernel state (`KernelState` of `metaboliq_agent.py`) -/

structure EphEntry where
  message : Message
  expiresAt : Int
  kind : String

structure KernelState where
  callIndex : Nat
  importStage : String
  importStageStartedAt : Nat
  importStageTtlCalls : Int
  importCapChars : Int
  ephemeralEntries : List EphEntry
  promotedMessageIds : List Nat
  lastSummaryMessage : Option Message
  summaryRequested : Bool
  nextId : Nat

/-- Model of `KernelState.__init__` with the recognized config options and their
defaults (`import_stage_ttl_calls` 2, `import_cap_chars` 1200). -/
def initKernelState (cfgTtl cfgCap : Option Int) : KernelState :=
  { callIndex := 0
    importStage := "idle"
    importStageStartedAt := 0
    importStageTtlCalls := cfgTtl.getD 2
    importCapChars := cfgCap.getD 1200
    ephemeralEntries := []
    promotedMessageIds := []
    lastSummaryMessage := none
    summaryRequested := false
    nextId := 0 }

def set_import_stage (s : KernelState) (stage : String) : KernelState :=
  if stage ≠ s.importStage then
    { s with importStage := stage, importStageStartedAt := s.callIndex }
  else s

def mark_ephemeral (s : KernelState) (msg : Message) (ttlCalls : Int) (kind : String) :
    KernelState :=
  if msg.msgId ∈ s.promotedMessageIds then s
  else
    { s with ephemeralEntries :=
        s.ephemeralEntries ++ [⟨msg, (s.callIndex : Int) + ttlCalls, kind⟩] }

def isUserOrSystem (m : Message) : Bool :=
  m.role = Role.user ∨ m.role = Role.system

/-- The entries `_mark_default_ephemeral` appends, in loop order: one
`(expires_at = call_index + 1, kind = 'auto')` entry per message that is not
user/system, not promoted and not already tracked (`existing` is computed once
before the loop, as in the source; `mark_ephemeral`'s own promoted guard
coincides with the loop's check). -/
def markDefaultGo (callIndex : Nat) (promoted : List Nat) (existing : List Nat) :
    List Message → List EphEntry
  | [] => []
  | m :: rest =>
    if isUserOrSystem m then markDefaultGo callIndex promoted existing rest
    else if m.msgId ∈ promoted then markDefaultGo callIndex promoted existing rest
    else if m.msgId ∈ existing then markDefaultGo callIndex promoted existing rest
    else ⟨m, (callIndex : Int) + 1, "auto"⟩ :: markDefaultGo callIndex promoted existing rest

def mark_default_ephemeral (s : KernelState) (messages : List Message) : KernelState :=
  let existing := s.ephemeralEntries.map fun e => e.message.msgId
  { s with ephemeralEntries :=
      s.ephemeralEntries ++ markDefaultGo s.callIndex s.promotedMessageIds existing messages }

def enforce_stage_ttl (s : KernelState) (messages : List Message) :
    KernelState × List Message :=
  if s.importStage = "idle" then (s, messages)
  else if s.importStageTtlCalls ≤ 0 then (s, messages)
  else if s.importStageTtlCalls ≤ (s.callIndex : Int) - (s.importStageStartedAt : Int) then
    ({ s with ephemeralEntries := []
              lastSummaryMessage := none
              promotedMessageIds := []
              importStage := "idle"
              importStageStartedAt := s.callIndex },
     messages.filter isUserOrSystem)
  else (s, messages)

/-- Model of `_prune_ephemeral`.  Note the source's final `self.ephemeral_entries =
keep`: the entry that `self.mark_ephemeral(notice, ttl_calls=1,
kind='policy')` appends goes to the pre-assignment list object and is
discarded by that assignment, so the resulting entry table is exactly `keep`
and the appended notice is left untracked. -/
def prune_ephemeral (s : KernelState) (messages : List Message) :
    KernelState × List Message :=
  let expired := s.ephemeralEntries.filter fun e => decide (e.expiresAt < (s.callIndex : Int))
  let keep := s.ephemeralEntries.filter fun e => !decide (e.expiresAt < (s.callIndex : Int))
  let toRemove := (expired.map fun e => e.message.msgId).dedup
  if toRemove.isEmpty then ({ s with ephemeralEntries := keep }, messages)
  else
    let messages1 := messages.filter fun m => !decide (m.msgId ∈ toRemove)
    let summaryPruned : Bool :=
      match s.lastSummaryMessage with
      | some ls => decide (ls.msgId ∈ toRemove)
      | none => false
    let notice : Message :=
      { msgId := s.nextId
        role := .function
        content := .dict (.obj [("expired_entries", .num toRemove.length),
                                ("message", .str (toString toRemove.length ++ " entries expired"))])
        name := some "policy_notice" }
    ({ s with
        ephemeralEntries := keep
        lastSummaryMessage := if summaryPruned then none else s.lastSummaryMessage
        importStage := if summaryPruned && decide (s.importStage = "summarize") then "idle"
                       else s.importStage
        summaryRequested := if summaryPruned then false else s.summaryRequested
        nextId := s.nextId + 1 },
     messages1 ++ [notice])

def begin_llm_call (s : KernelState) (messages : List Message) :
    KernelState × List Message :=
  let s0 := { s with callIndex := s.callIndex + 1 }
  let r1 := enforce_stage_ttl s0 messages
  let s2 := mark_default_ephemeral r1.1 r1.2
  prune_ephemeral s2 r1.2

/-- The context invariant claimed for the state after `begin_llm_call`: every
message still in the working context is user/system, or promoted, or tracked
by an unexpired ephemeral entry. -/
def contextInvariantB (s : KernelState) (messages : List Message) : Bool :=
  messages.all fun m =>
    isUserOrSystem m ||
    decide (m.msgId ∈ s.promotedMessageIds) ||
    s.ephemeralEntries.any fun e =>
      decide (e.message.msgId = m.msgId) && decide ((s.callIndex : Int) ≤ e.expiresAt)

/-- Turn-order validity: if any non-system message is present, the first
non-system message is a user message. -/
def firstNonSystemIsUser : List Message → Bool
  | [] => true
  | m :: rest =>
    if m.role = Role.system then firstNonSystemIsUser rest
    else decide (m.role = Role.user)

/-! ## `_truncate_content` -/

def truncateItemsGo : List CItem → Nat → List CItem
  | [], _ => []
  | it :: rest, remaining =>
    match it.text with
    | some t =>
      if remaining < t.data.length then
        ⟨some (String.mk (t.data.take remaining ++ "...".data)), none⟩ :: truncateItemsGo rest 0
      else ⟨some t, none⟩ :: truncateItemsGo rest (remaining - t.data.length)
    | none => it :: truncateItemsGo rest remaining

def truncate_content (content : MContent) (cap : Int) : MContent :=
  if cap ≤ 0 then content
  else
    match content with
    | .str s =>
      if (s.data.length : Int) ≤ cap then .str s
      else .str (String.mk (s.data.take cap.toNat ++ "...".data))
    | .items xs => .items (truncateItemsGo xs cap.toNat)
    | .dict j =>
      let ser := jsonDumps j
      if (ser.data.length : Int) ≤ cap then .str ser
      else .str (String.mk (ser.data.take cap.toNat ++ "...".data))

/-! ## Erase tool (`erase.py`), working-context mutation

`erase_call` is the effect of `EraseTool.call` on the message list: with no
resolvable erasable target the list is untouched (the help and the
no-match responses both return without mutating), otherwise the targeted
indices are dropped and turn order is repaired with a synthetic
`{role: user, content: "[deleted]"}` message. -/

inductive Target where
  | index (i : Int)
  | range (start stop : Int)
  | roleLast (role : String) (last : Int)
deriving DecidableEq, Repr

def erasableB (r : Role) : Bool :=
  r = Role.assistant ∨ r = Role.function ∨ r = Role.user

/-- Python `l[-last:]` on a list of indices. -/
def pyTail (l : List Nat) (last : Int) : List Nat :=
  let i : Int := -last
  if i < 0 then l.drop (max 0 ((l.length : Int) + i)).toNat
  else l.drop (min i (l.length : Int)).toNat

def indicesWithRole (messages : List Message) (r : String) : List Nat :=
  (messages.enum.filter fun p => roleToString p.2.role = r).map fun p => p.1

/-- Whether a single selector resolves position `i` (holding message `m`) into
`to_erase`; mirrors the three branches of the target loop, including the
erasable-role check each branch performs. -/
def coversB (messages : List Message) (t : Target) (i : Nat) (m : Message) : Bool :=
  match t with
  | .index j => decide (j = (i : Int)) && erasableB m.role
  | .range a b =>
    let lo := if b < a then b else a
    let hi := if b < a then a else b
    decide (max 0 lo ≤ (i : Int) ∧ (i : Int) < min (messages.length : Int) (hi + 1)) &&
      erasableB m.role
  | .roleLast r k => decide (i ∈ pyTail (indicesWithRole messages r) k) && erasableB m.role

def eraseDeletes (targets : List Target) (messages : List Message) : Bool :=
  messages.enum.any fun p => targets.any fun t => coversB messages t p.1 p.2

def eraseKept (targets : List Target) (messages : List Message) : List Message :=
  (messages.enum.filter fun p => !targets.any fun t => coversB messages t p.1 p.2).map
    fun p => p.2

/-- The turn-order repair: find the first non-system message; if it is not a
user message, insert a synthetic user message before it. -/
def repairTurnOrder (freshId : Nat) : List Message → List Message
  | [] => []
  | m :: rest =>
    if m.role = Role.system then m :: repairTurnOrder freshId rest
    else if m.role = Role.user then m :: rest
    else ⟨freshId, Role.user, .str "[deleted]", none⟩ :: m :: rest

def erase_call (targets : List Target) (messages : List Message) (freshId : Nat) :
    List Message :=
  if eraseDeletes targets messages then repairTurnOrder freshId (eraseKept targets messages)
  else messages

/-! ## Concrete instances used by witnesses and counterexamples -/

def wSys : Message := ⟨0, .system, .str "prompt", none⟩

def wUser : Message := ⟨1, .user, .str "hello", none⟩

def wAsst1 : Message := ⟨2, .assistant, .str "a1", none⟩

def wUser2 : Message := ⟨3, .user, .str "u2", none⟩

def wAsst2 : Message := ⟨4, .assistant, .str "a2", none⟩

def wTool : Message := ⟨7, .function, .str "tool output", some "describe_file"⟩

def wFn10 : Message := ⟨10, .function, .str "out", none⟩

def c1State : KernelState :=
  { callIndex := 1, importStage := "idle", importStageStartedAt := 0,
    importStageTtlCalls := 2, importCapChars := 1200,
    ephemeralEntries := [⟨wTool, 1, "tool"⟩], promotedMessageIds := [],
    lastSummaryMessage := none, summaryRequested := false, nextId := 100 }

def c1Notice : Message :=
  { msgId := 100, role := .function,
    content := .dict (.obj [("expired_entries", .num 1),
                            ("message", .str "1 entries expired")]),
    name := some "policy_notice" }

def c2State : KernelState :=
  { callIndex := 1, importStage := "outline", importStageStartedAt := 0,
    importStageTtlCalls := 2, importCapChars := 1200,
    ephemeralEntries := [⟨wFn10, 2, "tool"⟩], promotedMessageIds := [],
    lastSummaryMessage := none, summaryRequested := false, nextId := 40 }

def c4State : KernelState :=
  { callIndex := 0, importStage := "idle", importStageStartedAt := 0,
    importStageTtlCalls := 2, importCapChars := 1200,
    ephemeralEntries := [⟨wFn10, 1, "tool"⟩], promotedMessageIds := [],
    lastSummaryMessage := none, summaryRequested := false, nextId := 50 }

def c8State : KernelState :=
  { callIndex := 1, importStage := "idle", importStageStartedAt := 0,
    importStageTtlCalls := 2, importCapChars := 1200,
    ephemeralEntries := [⟨wFn10, 0, "tool"⟩], promotedMessageIds := [],
    lastSummaryMessage := none, summaryRequested := false, nextId := 77 }

def c8wState : KernelState :=
  { callIndex := 1, importStage := "idle", importStageStartedAt := 0,
    importStageTtlCalls := 2, importCapChars := 1200,
    ephemeralEntries := [⟨wTool, 1, "tool"⟩], promotedMessageIds := [],
    lastSummaryMessage := none, summaryRequested := false, nextId := 88 }

def tData : JValue := .obj [("a", .obj [("b", .arr [.num 1, .num 2, .num 3])])]

def tData99 : JValue := .obj [("a", .obj [("b", .arr [.num 1, .num 99, .num 3])])]

def c6Data : JValue := .obj [("a", .arr [.obj [("b", .num 5)]])]

/-! # Theorems -/

theorem get?_set_self {α : Type} (l : List α) (j : Nat) (a : α) (h : j < l.length) :
    (l.set j a).get? j = some a := by
  induction l generalizing j with
  | nil => simp at h
  | cons x xs ih =>
    cases j with
    | zero => simp [List.set]
    | succ k => simpa [List.set] using ih k (by simpa using h)

theorem pyListSet_get {α : Type} (xs xs' : List α) (i : Int) (a : α)
    (h : pyListSet xs i a = some xs') : pyListGet xs' i = some a := by
  unfold pyListSet at h
  unfold pyListGet
  unfold pyIdx at h ⊢
  by_cases hin : 0 ≤ (if i < 0 then i + (xs.length : Int) else i) ∧
      (if i < 0 then i + (xs.length : Int) else i) < (xs.length : Int)
  · simp only [hin, if_pos, Option.map_some] at h
    cases h
    have hlen : (xs.set (if i < 0 then i + (xs.length : Int) else i).toNat a).length
        = xs.length := by simp
    rw [hlen]
    simp only [hin, if_pos, Option.bind_some]
    exact get?_set_self xs _ a (by
      rcases hin with ⟨h0, h1⟩
      omega)
  · simp [hin] at h

theorem lookupFirst_setKey (kvs : List (String × JValue)) (k : String) (v : JValue) :
    lookupFirst (setKey kvs k v) k = some v := by
  induction kvs with
  | nil => simp [setKey, lookupFirst]
  | cons p rest ih =>
    obtain ⟨k0, v0⟩ := p
    by_cases h : k0 = k
    · simp [setKey, h, lookupFirst]
    · simp [setKey, h, lookupFirst, ih]

theorem getPath_setPath (p : List JKey) (d v d' : JValue)
    (h : setPath d p v = some d') : getPath d' p = some v := by
  induction p generalizing d d' with
  | nil => simp [setPath] at h
  | cons k rest ih =>
    cases rest with
    | nil =>
      cases d with
      | obj kvs =>
        cases k with
        | str key =>
          simp only [setPath, setLeaf] at h
          cases h
          simp [getPath, jIndex, lookupFirst_setKey]
        | int i => simp [setPath, setLeaf] at h
      | arr xs =>
        cases k with
        | int i =>
          simp only [setPath, setLeaf] at h
          cases hset : pyListSet xs i v with
          | none => rw [hset] at h; simp at h
          | some xs' =>
            rw [hset] at h
            simp only [Option.map_some'] at h
            cases h
            simp [getPath, jIndex, pyListSet_get xs xs' i v hset]
        | str key => simp [setPath, setLeaf] at h
      | null => simp [setPath, setLeaf] at h
      | bool b => simp [setPath, setLeaf] at h
      | num n => simp [setPath, setLeaf] at h
      | str s => simp [setPath, setLeaf] at h
    | cons k2 rest2 =>
      simp only [setPath] at h
      cases hchild : jIndex d k with
      | none => rw [hchild] at h; simp at h
      | some c =>
        rw [hchild] at h
        simp only [Option.some_bind] at h
        cases hc2 : setPath c (k2 :: rest2) v with
        | none => rw [hc2] at h; simp at h
        | some c2 =>
          rw [hc2] at h
          simp only [Option.some_bind] at h
          have hrec := ih c c2 hc2
          cases d with
          | obj kvs =>
            cases k with
            | str key =>
              simp only [setChildAt] at h
              cases h
              simp only [getPath, jIndex, lookupFirst_setKey, Option.some_bind] at hrec ⊢
              exact hrec
            | int i => simp [setChildAt] at h
          | arr xs =>
            cases k with
            | int i =>
              simp only [setChildAt] at h
              cases hset : pyListSet xs i c2 with
              | none => rw [hset] at h; simp at h
              | some xs' =>
                rw [hset] at h
                simp only [Option.map_some'] at h
                cases h
                simp only [getPath, jIndex, Option.some_bind,
                  pyListSet_get xs xs' i c2 hset] at hrec ⊢
                exact hrec
            | str key => simp [setChildAt] at h
          | null => simp [setChildAt] at h
          | bool b => simp [setChildAt] at h
          | num n => simp [setChildAt] at h
          | str s => simp [setChildAt] at h

theorem enforce_idle (s : KernelState) (msgs : List Message) (h : s.importStage = "idle") :
    enforce_stage_ttl s msgs = (s, msgs) := by
  simp [enforce_stage_ttl, h]

theorem markDefaultGo_expires (c : Nat) (prom ex : List Nat) (msgs : List Message) :
    ∀ e ∈ markDefaultGo c prom ex msgs, e.expiresAt = (c : Int) + 1 := by
  induction msgs with
  | nil => intro e he; simp [markDefaultGo] at he
  | cons m rest ih =>
    intro e he
    simp only [markDefaultGo] at he
    split at he
    · exact ih e he
    · split at he
      · exact ih e he
      · split at he
        · exact ih e he
        · rcases List.mem_cons.mp he with h | h
          · rw [h]
          · exact ih e h

theorem markDefaultGo_covers (c : Nat) (prom ex : List Nat) (msgs : List Message)
    (m : Message) (hm : m ∈ msgs) (hrole : isUserOrSystem m = false)
    (hprom : m.msgId ∉ prom) :
    m.msgId ∈ ex ∨ m.msgId ∈ (markDefaultGo c prom ex msgs).map fun e => e.message.msgId := by
  induction msgs with
  | nil => simp at hm
  | cons m0 rest ih =>
    rcases List.mem_cons.mp hm with h | h
    · subst h
      simp only [markDefaultGo, hrole, Bool.false_eq_true, if_false]
      by_cases hp : m.msgId ∈ prom
      · exact absurd hp hprom
      · rw [if_neg hp]
        by_cases hex : m.msgId ∈ ex
        · exact Or.inl hex
        · rw [if_neg hex]
          exact Or.inr (by simp)
    · have hrec := ih h
      simp only [markDefaultGo]
      rcases hrec with hl | hr
      · exact Or.inl hl
      · split
        · exact Or.inr hr
        · split
          · exact Or.inr hr
          · split
            · exact Or.inr hr
            · exact Or.inr (by simp only [List.map_cons, List.mem_cons]; exact Or.inr hr)

theorem markDefaultGo_nil (c : Nat) (prom ex : List Nat) (msgs : List Message)
    (h : ∀ m ∈ msgs, isUserOrSystem m = true ∨ m.msgId ∈ prom ∨ m.msgId ∈ ex) :
    markDefaultGo c prom ex msgs = [] := by
  induction msgs with
  | nil => rfl
  | cons m rest ih =>
    have hm := h m (List.mem_cons_self m rest)
    have hrest := ih fun x hx => h x (List.mem_cons_of_mem m hx)
    simp only [markDefaultGo]
    rcases hm with h1 | h2 | h3
    · rw [if_pos h1, hrest]
    · by_cases hu : isUserOrSystem m = true
      · rw [if_pos hu, hrest]
      · rw [if_neg hu, if_pos h2, hrest]
    · by_cases hu : isUserOrSystem m = true
      · rw [if_pos hu, hrest]
      · rw [if_neg hu]
        by_cases hp : m.msgId ∈ prom
        · rw [if_pos hp, hrest]
        · rw [if_neg hp, if_pos h3, hrest]

theorem prune_noop (s : KernelState) (msgs : List Message)
    (h : ∀ e ∈ s.ephemeralEntries, ¬ (e.expiresAt < (s.callIndex : Int))) :
    prune_ephemeral s msgs = (s, msgs) := by
  have hexp : s.ephemeralEntries.filter
      (fun e => decide (e.expiresAt < (s.callIndex : Int))) = [] := by
    rw [List.filter_eq_nil_iff]
    intro e he
    simpa using h e he
  have hkeep : s.ephemeralEntries.filter
      (fun e => !decide (e.expiresAt < (s.callIndex : Int))) = s.ephemeralEntries := by
    rw [List.filter_eq_self]
    intro e he
    simpa using h e he
  simp only [prune_ephemeral, hexp, hkeep, List.map_nil, List.dedup_nil, List.isEmpty_nil,
    if_true]

/-- C2: For every kernel with a non-idle stage and a positive
`import_stage_ttl_calls`, as soon as the incremented call index is at least
TTL calls past the stage timestamp, `begin_llm_call` resets the working
context to user/system messages only, clears the ephemeral table, the
promoted set and the last summary, and sets the stage to `idle` with its
timestamp equal to the current (incremented) call index. -/
theorem c2_stage_ttl_reset (s : KernelState) (messages : List Message)
    (h1 : s.importStage ≠ "idle") (h2 : 0 < s.importStageTtlCalls)
    (h3 : s.importStageTtlCalls ≤ ((s.callIndex : Int) + 1) - (s.importStageStartedAt : Int)) :
    (begin_llm_call s messages).2 = messages.filter isUserOrSystem ∧
    (begin_llm_call s messages).1.ephemeralEntries = [] ∧
    (begin_llm_call s messages).1.promotedMessageIds = [] ∧
    (begin_llm_call s messages).1.lastSummaryMessage = none ∧
    (begin_llm_call s messages).1.importStage = "idle" ∧
    (begin_llm_call s messages).1.importStageStartedAt = s.callIndex + 1 ∧
    (begin_llm_call s messages).1.callIndex = s.callIndex + 1 := by
  have hwipe : enforce_stage_ttl { s with callIndex := s.callIndex + 1 } messages =
      ({ s with callIndex := s.callIndex + 1
                ephemeralEntries := []
                lastSummaryMessage := none
                promotedMessageIds := []
                importStage := "idle"
                importStageStartedAt := s.callIndex + 1 },
       messages.filter isUserOrSystem) := by
    simp only [enforce_stage_ttl]
    rw [if_neg h1, if_neg (by omega : ¬ s.importStageTtlCalls ≤ 0),
      if_pos (by push_cast; omega :
        s.importStageTtlCalls ≤ (((s.callIndex + 1 : Nat) : Int)) -
          ((s.importStageStartedAt : Nat) : Int))]
  have hgo : markDefaultGo (s.callIndex + 1) [] []
      (messages.filter isUserOrSystem) = [] :=
    markDefaultGo_nil _ _ _ _ fun m hm => Or.inl (List.mem_filter.mp hm).2
  have e1 : begin_llm_call s messages =
      ({ s with callIndex := s.callIndex + 1
                ephemeralEntries := []
                lastSummaryMessage := none
                promotedMessageIds := []
                importStage := "idle"
                importStageStartedAt := s.callIndex + 1 },
       messages.filter isUserOrSystem) := by
    simp only [begin_llm_call]
    rw [hwipe]
    simp only [mark_default_ephemeral, List.map_nil]
    rw [hgo, List.append_nil]
    exact prune_noop _ _ (by intro e he; simp at he)
  rw [e1]
  exact ⟨rfl, rfl, rfl, rfl, rfl, rfl, rfl⟩

/-- C4 (amended): starting from a kernel whose stage is idle and whose
ephemeral table is empty, calling `begin_llm_call` twice in a row with no new
messages in between prunes nothing the second time: the second call returns
the message list of the first call unchanged (no removal, no policy
notice). -/
theorem c4_second_call_no_prune (s : KernelState) (msgs : List Message)
    (h1 : s.importStage = "idle") (h2 : s.ephemeralEntries = []) :
    (begin_llm_call (begin_llm_call s msgs).1 (begin_llm_call s msgs).2).2
      = (begin_llm_call s msgs).2 := by
  have e1 : begin_llm_call s msgs =
      ({ s with callIndex := s.callIndex + 1
                ephemeralEntries :=
                  markDefaultGo (s.callIndex + 1) s.promotedMessageIds [] msgs }, msgs) := by
    simp only [begin_llm_call]
    rw [enforce_idle { s with callIndex := s.callIndex + 1 } msgs h1]
    simp only [mark_default_ephemeral, h2, List.map_nil, List.nil_append]
    exact prune_noop _ _ (by
      intro e he
      have hx := markDefaultGo_expires (s.callIndex + 1) s.promotedMessageIds [] msgs e he
      simp only [hx]
      push_cast
      omega)
  set gen := markDefaultGo (s.callIndex + 1) s.promotedMessageIds [] msgs with hgendef
  have hcover : ∀ m ∈ msgs, isUserOrSystem m = true ∨ m.msgId ∈ s.promotedMessageIds ∨
      m.msgId ∈ gen.map fun e => e.message.msgId := by
    intro m hm
    by_cases hu : isUserOrSystem m = true
    · exact Or.inl hu
    · by_cases hp : m.msgId ∈ s.promotedMessageIds
      · exact Or.inr (Or.inl hp)
      · rcases markDefaultGo_covers (s.callIndex + 1) s.promotedMessageIds [] msgs m hm
          (by simpa using hu) hp with h | h
        · simp at h
        · exact Or.inr (Or.inr h)
  rw [e1]
  simp only [begin_llm_call]
  rw [enforce_idle
    { s with callIndex := s.callIndex + 1 + 1, ephemeralEntries := gen } msgs h1]
  simp only [mark_default_ephemeral]
  rw [markDefaultGo_nil _ _ _ _ hcover, List.append_nil]
  rw [prune_noop _ _ (by
    intro e he
    have hx := markDefaultGo_expires (s.callIndex + 1) s.promotedMessageIds [] msgs e he
    simp only [hx]
    push_cast
    omega)]

/-- C1 (code evaluated at the failing input): after `begin_llm_call` on a
kernel holding one expired ephemeral entry for the sole context message, the
working context consists of the freshly appended `policy_notice` function
message, yet the ephemeral table is empty: the `mark_ephemeral` registration
of the notice is discarded by the subsequent `self.ephemeral_entries = keep`
assignment, so the notice is untracked (not user/system, not promoted, no
entry) and the claimed context invariant evaluates to false. -/
theorem c1_policy_notice_untracked :
    (begin_llm_call c1State [wTool]).2 = [c1Notice] ∧
    c1Notice.role = Role.function ∧
    c1Notice.msgId ∉ (begin_llm_call c1State [wTool]).1.promotedMessageIds ∧
    (begin_llm_call c1State [wTool]).1.ephemeralEntries = [] ∧
    contextInvariantB (begin_llm_call c1State [wTool]).1 (begin_llm_call c1State [wTool]).2
      = false :=
  ⟨rfl, rfl, by decide, rfl, rfl⟩

/-- C2 witness: a kernel in stage `outline` since call 0 with TTL 2, at the
second subsequent call, is radically reset. -/
theorem c2_stage_ttl_reset_witness :
    (begin_llm_call c2State [wSys, wUser, wFn10]).2
      = [wSys, wUser, wFn10].filter isUserOrSystem ∧
    (begin_llm_call c2State [wSys, wUser, wFn10]).1.ephemeralEntries = [] ∧
    (begin_llm_call c2State [wSys, wUser, wFn10]).1.promotedMessageIds = [] ∧
    (begin_llm_call c2State [wSys, wUser, wFn10]).1.lastSummaryMessage = none ∧
    (begin_llm_call c2State [wSys, wUser, wFn10]).1.importStage = "idle" ∧
    (begin_llm_call c2State [wSys, wUser, wFn10]).1.importStageStartedAt = 2 ∧
    (begin_llm_call c2State [wSys, wUser, wFn10]).1.callIndex = 2 :=
  c2_stage_ttl_reset c2State [wSys, wUser, wFn10] (by decide) (by decide) (by decide)

/-- C4 counterexample: from a kernel tracking one ephemeral entry created one
call earlier (`expires_at = 1`), two consecutive `begin_llm_call`s with no new
messages: the first call prunes nothing, the second call removes message 10
from the context and appends a `policy_notice` — contradicting the claim that
the second call prunes nothing. -/
theorem c4_counterexample :
    (begin_llm_call c4State [wFn10]).2 = [wFn10] ∧
    (10 : Nat) ∉ ((begin_llm_call (begin_llm_call c4State [wFn10]).1
        (begin_llm_call c4State [wFn10]).2).2.map Message.msgId) ∧
    ((begin_llm_call (begin_llm_call c4State [wFn10]).1
        (begin_llm_call c4State [wFn10]).2).2.map fun m => m.name)
      = [some "policy_notice"] :=
  ⟨rfl, by decide, rfl⟩

/-- C4 witness: the amended idempotence at a concrete fresh kernel. -/
theorem c4_witness :
    (begin_llm_call (begin_llm_call (initKernelState none none) [wUser, wAsst1]).1
        (begin_llm_call (initKernelState none none) [wUser, wAsst1]).2).2
      = (begin_llm_call (initKernelState none none) [wUser, wAsst1]).2 :=
  c4_second_call_no_prune (initKernelState none none) [wUser, wAsst1] rfl rfl

theorem markDefaultGo_not_existing (c : Nat) (prom ex : List Nat) (msgs : List Message) :
    ∀ e ∈ markDefaultGo c prom ex msgs, e.message.msgId ∉ ex := by
  induction msgs with
  | nil => intro e he; simp [markDefaultGo] at he
  | cons m rest ih =>
    intro e he
    simp only [markDefaultGo] at he
    by_cases h1 : isUserOrSystem m = true
    · rw [if_pos h1] at he; exact ih e he
    · rw [if_neg h1] at he
      by_cases h2 : m.msgId ∈ prom
      · rw [if_pos h2] at he; exact ih e he
      · rw [if_neg h2] at he
        by_cases h3 : m.msgId ∈ ex
        · rw [if_pos h3] at he; exact ih e he
        · rw [if_neg h3] at he
          rcases List.mem_cons.mp he with rfl | h
          · exact h3
          · exact ih e h

/-- C3 (amended): `mark_ephemeral` is a no-op when the message identity is
promoted; otherwise it appends one entry per call, so calling it twice
produces two entries for the same message — it is NOT idempotent.
Deduplication by identity happens only in `begin_llm_call`'s default
auto-marking, which adds nothing for a message that is already tracked. -/
theorem c3_mark_ephemeral_behavior :
    (∀ (s : KernelState) (m : Message) (ttl : Int) (kind : String),
        m.msgId ∈ s.promotedMessageIds → mark_ephemeral s m ttl kind = s) ∧
    (∀ (s : KernelState) (m : Message) (ttl : Int) (kind : String),
        m.msgId ∉ s.promotedMessageIds →
        (mark_ephemeral s m ttl kind).ephemeralEntries
          = s.ephemeralEntries ++ [⟨m, (s.callIndex : Int) + ttl, kind⟩]) ∧
    (∀ (s : KernelState) (m : Message) (ttl : Int) (kind : String),
        m.msgId ∉ s.promotedMessageIds →
        ((mark_ephemeral (mark_ephemeral s m ttl kind) m ttl kind).ephemeralEntries.filter
            fun e => decide (e.message.msgId = m.msgId)).length
          = (s.ephemeralEntries.filter fun e => decide (e.message.msgId = m.msgId)).length
            + 2) ∧
    (∀ (s : KernelState) (m : Message) (msgs : List Message),
        m.msgId ∈ s.ephemeralEntries.map (fun e => e.message.msgId) →
        ((mark_default_ephemeral s msgs).ephemeralEntries.filter
            fun e => decide (e.message.msgId = m.msgId)).length
          = (s.ephemeralEntries.filter fun e => decide (e.message.msgId = m.msgId)).length) := by
  refine ⟨?_, ?_, ?_, ?_⟩
  · intro s m ttl kind h
    simp [mark_ephemeral, h]
  · intro s m ttl kind h
    simp [mark_ephemeral, h]
  · intro s m ttl kind h
    simp [mark_ephemeral, h, List.filter_append]
  · intro s m msgs h
    have hgen := markDefaultGo_not_existing s.callIndex s.promotedMessageIds
      (s.ephemeralEntries.map fun e => e.message.msgId) msgs
    have hnil : (markDefaultGo s.callIndex s.promotedMessageIds
        (s.ephemeralEntries.map fun e => e.message.msgId) msgs).filter
          (fun e => decide (e.message.msgId = m.msgId)) = [] := by
      rw [List.filter_eq_nil_iff]
      intro e he
      simp only [decide_eq_true_eq]
      intro hx
      exact hgen e he (hx ▸ h)
    simp [mark_default_ephemeral, List.filter_append, hnil]

/-- C3 counterexample: two `mark_ephemeral` calls for the same (unpromoted)
message leave two entries for it, not one. -/
theorem c3_counterexample :
    ((mark_ephemeral (mark_ephemeral (initKernelState none none) wFn10 1 "tool")
        wFn10 1 "tool").ephemeralEntries.filter
          fun e => decide (e.message.msgId = wFn10.msgId)).length = 2 ∧ (2 : Nat) ≠ 1 :=
  ⟨rfl, by decide⟩

/-- C3 witness: the four behaviors at concrete inputs. -/
theorem c3_witness :
    (mark_ephemeral { initKernelState none none with promotedMessageIds := [10] }
        wFn10 1 "tool")
      = { initKernelState none none with promotedMessageIds := [10] } ∧
    (mark_ephemeral (initKernelState none none) wFn10 1 "tool").ephemeralEntries
      = [⟨wFn10, ((initKernelState none none).callIndex : Int) + 1, "tool"⟩] ∧
    ((mark_ephemeral (mark_ephemeral (initKernelState none none) wFn10 2 "policy")
        wFn10 2 "policy").ephemeralEntries.filter
          fun e => decide (e.message.msgId = wFn10.msgId)).length
      = ((initKernelState none none).ephemeralEntries.filter
          fun e => decide (e.message.msgId = wFn10.msgId)).length + 2 ∧
    ((mark_default_ephemeral c4State [wFn10]).ephemeralEntries.filter
        fun e => decide (e.message.msgId = wFn10.msgId)).length
      = (c4State.ephemeralEntries.filter
          fun e => decide (e.message.msgId = wFn10.msgId)).length :=
  ⟨c3_mark_ephemeral_behavior.1 _ wFn10 1 "tool" (by decide),
   c3_mark_ephemeral_behavior.2.1 _ wFn10 1 "tool" (by decide),
   c3_mark_ephemeral_behavior.2.2.1 _ wFn10 2 "policy" (by decide),
   c3_mark_ephemeral_behavior.2.2.2 c4State wFn10 [wFn10] (by decide)⟩

/-- C9 (amended): for a positive cap, `_truncate_content` on string content
yields a string of length at most cap + 3: content within the cap is
returned unchanged, longer content is cut to cap characters and an ellipsis
marker `...` is appended (so the result strictly exceeds the cap for long
inputs). -/
theorem c9_truncate_bound (s : String) (cap : Int) (h : 0 < cap) :
    ∃ t : String, truncate_content (.str s) cap = .str t ∧
      (t.data.length : Int) ≤ cap + 3 ∧
      ((s.data.length : Int) ≤ cap → t = s) := by
  simp only [truncate_content]
  rw [if_neg (by omega : ¬ cap ≤ 0)]
  by_cases hlen : (s.data.length : Int) ≤ cap
  · rw [if_pos hlen]
    exact ⟨s, rfl, by omega, fun _ => rfl⟩
  · rw [if_neg hlen]
    refine ⟨_, rfl, ?_, fun hc => absurd hc hlen⟩
    have h1 : (String.mk (s.data.take cap.toNat ++ "...".data)).data.length
        = (s.data.take cap.toNat).length + 3 := by
      simp [List.length_append]
    rw [h1]
    have h2 : (s.data.take cap.toNat).length ≤ cap.toNat := by
      simp [List.length_take_le cap.toNat s.data]
    omega

/-- C9 counterexample: with cap 4, the string "hello" is truncated to
"hell..." of length 7, exceeding the cap — the claim that the resulting
string content has length at most `import_cap_chars` is false. -/
theorem c9_counterexample :
    truncate_content (.str "hello") 4 = .str "hell..." ∧
    ¬ ((("hell..." : String).data.length : Int) ≤ 4) :=
  ⟨rfl, by decide⟩

/-- C9 witness: the amended bound at the same concrete input. -/
theorem c9_witness :
    ∃ t : String, truncate_content (.str "hello") 4 = .str t ∧
      (t.data.length : Int) ≤ 4 + 3 ∧
      ((("hello" : String).data.length : Int) ≤ 4 → t = "hello") :=
  c9_truncate_bound "hello" 4 (by decide)

/-- C10: `paginate_list` and `paginate_text` are total for all integer page
arguments: a page below 1 is treated as page 1, a page size below 1 as the
default 50, and a page whose start lies at or beyond the end of the data
returns empty items (empty text) with `truncated = false` and
`next_page = none` instead of raising. -/
theorem c10_paginate_total :
    (∀ (α : Type) (items : List α) (page ps : Int), page < 1 →
        paginate_list items page ps = paginate_list items 1 ps) ∧
    (∀ (α : Type) (items : List α) (page ps : Int), ps < 1 →
        paginate_list items page ps = paginate_list items page 50) ∧
    (∀ (α : Type) (items : List α) (page ps : Int),
        ((paginate_list items page ps).page - 1) * (paginate_list items page ps).pageSize
            ≥ (items.length : Int) →
        (paginate_list items page ps).items = [] ∧
        (paginate_list items page ps).truncated = false ∧
        (paginate_list items page ps).nextPage = none) ∧
    (∀ (text : String) (page ps : Int),
        ((paginate_text text page ps).page - 1) * (paginate_text text page ps).pageSize
            ≥ ((pySplitlines text).length : Int) →
        (paginate_text text page ps).text = "" ∧
        (paginate_text text page ps).truncated = false ∧
        (paginate_text text page ps).nextPage = none) := by
  have key : ∀ (α : Type) (items : List α) (page ps : Int),
      ((paginate_list items page ps).page - 1) * (paginate_list items page ps).pageSize
          ≥ (items.length : Int) →
      (paginate_list items page ps).items = [] ∧
      (paginate_list items page ps).truncated = false ∧
      (paginate_list items page ps).nextPage = none := by
    intro α items page ps h
    simp only [paginate_list] at h ⊢
    set p' : Int := if page < 1 then 1 else page with hp'
    set ps' : Int := if ps < 1 then 50 else ps with hps'
    have hp1 : 1 ≤ p' := by rw [hp']; split <;> omega
    have hps1 : 1 ≤ ps' := by rw [hps']; split <;> omega
    have hstart : (items.length : Int) ≤ (p' - 1) * ps' := h
    refine ⟨?_, ?_, ?_⟩
    · have hlen : items.length ≤ ((p' - 1) * ps').toNat := by omega
      rw [List.drop_eq_nil_of_le hlen, List.take_nil]
    · simp only [decide_eq_false_iff_not]
      omega
    · rw [if_neg (by omega : ¬ (p' - 1) * ps' + ps' < (items.length : Int))]
  refine ⟨?_, ?_, key, ?_⟩
  · intro α items page ps h
    simp only [paginate_list, if_pos h, if_neg (by omega : ¬ (1 : Int) < 1)]
  · intro α items page ps h
    simp only [paginate_list, if_pos h, if_neg (by omega : ¬ (50 : Int) < 1)]
  · intro text page ps h
    have hk := key String (pySplitlines text) page ps h
    simp only [paginate_text]
    exact ⟨by rw [hk.1]; rfl, hk.2.1, hk.2.2⟩

/-- C10 witness: clamping and the out-of-range page at concrete inputs. -/
theorem c10_witness :
    paginate_list [1, 2, 3] 0 2 = paginate_list [1, 2, 3] 1 2 ∧
    paginate_list [1, 2, 3] 1 0 = paginate_list [1, 2, 3] 1 50 ∧
    ((paginate_list [1, 2, 3] 5 2).items = [] ∧
      (paginate_list [1, 2, 3] 5 2).truncated = false ∧
      (paginate_list [1, 2, 3] 5 2).nextPage = none) ∧
    ((paginate_text "ab\ncd" 9 1).text = "" ∧
      (paginate_text "ab\ncd" 9 1).truncated = false ∧
      (paginate_text "ab\ncd" 9 1).nextPage = none) :=
  ⟨c10_paginate_total.1 Nat [1, 2, 3] 0 2 (by decide),
   c10_paginate_total.2.1 Nat [1, 2, 3] 1 0 (by decide),
   c10_paginate_total.2.2.1 Nat [1, 2, 3] 5 2 (by decide),
   c10_paginate_total.2.2.2 "ab\ncd" 9 1 (by decide)⟩

theorem extract_whole (data : JValue) (p : List JKey) (v : JValue) (page ps : Int)
    (hget : getPath data p = some v) (hw : returnedWhole v ps = true) :
    extract_section_map data (.list p) page ps = .whole v := by
  simp only [extract_section_map, hget]
  cases v with
  | obj kvs =>
    simp only [returnedWhole, decide_eq_true_eq] at hw
    dsimp only
    rw [if_pos (by simpa [List.length_map] using hw)]
  | arr xs =>
    simp only [returnedWhole, decide_eq_true_eq] at hw
    dsimp only
    rw [if_pos hw]
  | str sv => simp [returnedWhole] at hw
  | null => rfl
  | bool b => rfl
  | num n => rfl

/-- C5 (amended): for the map tool, after `replace` at a valid non-empty list
selector, `select` at the same selector returns the stored value whenever the
value is one the select branch returns whole (a scalar, or a small enough
object/array); in particular storing 99 at list selector ["a","b",1] in
{a:{b:[1,2,3]}} and then extracting ["a","b"] yields [1,99,3] whole.  (A
dotted string selector such as "a.b[1]", as the original claim literally
uses, is rejected — see the counterexample.) -/
theorem c5_map_roundtrip :
    (∀ (data data' v : JValue) (p : List JKey) (page ps : Int),
        replace_section_map data (.list p) v = .changedMap data' →
        returnedWhole v ps = true →
        extract_section_map data' (.list p) page ps = .whole v) ∧
    (replace_section_map tData (.list [.str "a", .str "b", .int 1]) (.num 99)
        = .changedMap tData99 ∧
     extract_section_map tData99 (.list [.str "a", .str "b"]) 1 50
        = .whole (.arr [.num 1, .num 99, .num 3])) := by
  constructor
  · intro data data' v p page ps hrep hw
    have hset : setPath data p v = some data' := by
      simp only [replace_section_map] at hrep
      cases hs : setPath data p v with
      | none => rw [hs] at hrep; cases hrep
      | some d2 =>
        rw [hs] at hrep
        injection hrep with h'
        rw [h']
    exact extract_whole data' p v page ps (getPath_setPath p data v data' hset) hw
  · exact ⟨rfl, rfl⟩

/-- C5 counterexample: the literal instance of the claim uses the dotted
string selector "a.b[1]"; `replace_section` on a map rejects any string
selector with `ValueError('Map selector must be a list path')` instead of
performing the replacement. -/
theorem c5_counterexample :
    replace_section_map tData (.str "a.b[1]") (.num 99)
      = .raised "Map selector must be a list path" := rfl

/-- C5 witness: the general round trip applied at the concrete replacement. -/
theorem c5_witness :
    extract_section_map tData99 (.list [.str "a", .str "b", .int 1]) 1 50
      = .whole (.num 99) :=
  c5_map_roundtrip.1 tData tData99 (.num 99) [.str "a", .str "b", .int 1] 1 50 rfl rfl

/-- C6 (amended): map `select` and `replace` accept the selector only as a
structured path list — every string selector (dotted/bracketed or otherwise)
raises `ValueError('Map selector must be a list path')`; within a list
selector, integer entries subscript arrays and string entries subscript
object keys, exactly as the `getPath` traversal. -/
theorem c6_selector_list_only :
    (∀ (data : JValue) (sl : String) (page ps : Int),
        extract_section_map data (.str sl) page ps
          = .raised "Map selector must be a list path") ∧
    (∀ (data v : JValue) (sl : String),
        replace_section_map data (.str sl) v
          = .raised "Map selector must be a list path") ∧
    (∀ (data v : JValue) (p : List JKey) (page ps : Int),
        getPath data p = some v → returnedWhole v ps = true →
        extract_section_map data (.list p) page ps = .whole v) :=
  ⟨fun _ _ _ _ => rfl, fun _ _ _ => rfl,
   fun data v p page ps hg hw => extract_whole data p v page ps hg hw⟩

/-- C6 counterexample: the dotted/bracketed string "a[0].b" — which the claim
says is accepted — is rejected by map select. -/
theorem c6_counterexample :
    extract_section_map c6Data (.str "a[0].b") 1 50
      = .raised "Map selector must be a list path" := rfl

/-- C6 witness: the same address as a structured list (string key, integer
index, string key) selects the value. -/
theorem c6_witness :
    extract_section_map c6Data (.list [.str "a", .int 0, .str "b"]) 1 50
      = .whole (.num 5) :=
  c6_selector_list_only.2.2 c6Data (.num 5) [.str "a", .int 0, .str "b"] 1 50 rfl rfl

/-- C7 (amended): a path whose lower-cased extension is outside the set the
source actually dispatches — only .py/.json/.yaml/.yml/.csv/.tsv — is
detected as `blob`; `describe_file` then returns the blob outline (byte size
and sha256 digest), while `extract_section` and `replace_section` raise
`'select/replace not supported for blob'`.  No structured error enumerating
supported extensions is produced anywhere, and the other extensions the claim
lists as supported (.js/.ts/.jsx/.tsx/.toml/.ini/.cfg/.txt/.log/.md/.markdown)
fall into the same blob branch. -/
theorem c7_unknown_extension_blob (path : String)
    (h : extLower path ∉ [".py", ".json", ".yaml", ".yml", ".csv", ".tsv"]) :
    detect_kind path = "blob" ∧
    (∀ (n : Nat) (hash : String) (page ps : Int),
        describe_file_call path (.blobData n hash) page ps = .blobOutline n hash) ∧
    (∀ (file : FileData) (sel : PySel) (page ps : Int),
        extract_section_call path file sel page ps
          = .raised "select not supported for blob") ∧
    (∀ (file : FileData) (sel : PySel) (v : JValue),
        replace_section_call path file sel v
          = .raised "replace not supported for blob") := by
  simp only [List.mem_cons, List.not_mem_nil, or_false, not_or] at h
  obtain ⟨h1, h2, h3, h4, h5, h6⟩ := h
  have hd : detect_kind path = "blob" := by
    simp only [detect_kind]
    rw [if_neg h1, if_neg (by simp [not_or]; exact ⟨h2, h3, h4⟩),
      if_neg (by simp [not_or]; exact ⟨h5, h6⟩)]
  refine ⟨hd, ?_, ?_, ?_⟩
  · intro n hash page ps
    simp only [describe_file_call, hd]
    rw [if_neg (by decide), if_neg (by decide), if_neg (by decide)]
  · intro file sel page ps
    simp only [extract_section_call, hd]
    rw [if_neg (by decide), if_neg (by decide), if_neg (by decide)]
  · intro file sel v
    simp only [replace_section_call, hd]
    rw [if_neg (by decide), if_neg (by decide), if_neg (by decide)]

/-- C7 counterexample: for the unsupported extension `.xyz`, `describe_file`
returns a blob outline — not an error enumerating the supported extensions —
and `extract_section` raises a plain 'select not supported for blob'.  Even
`.md`, which the claim lists among the supported extensions, is detected as
blob. -/
theorem c7_counterexample :
    detect_kind "/tmp/data.xyz" = "blob" ∧
    describe_file_call "/tmp/data.xyz" (.blobData 4 "d0d0") 1 50 = .blobOutline 4 "d0d0" ∧
    extract_section_call "/tmp/data.xyz" (.blobData 4 "d0d0") (.str "a") 1 50
      = .raised "select not supported for blob" ∧
    detect_kind "/tmp/notes.md" = "blob" :=
  ⟨rfl, rfl, rfl, rfl⟩

/-- C7 witness: the amended behavior at a concrete unsupported path. -/
theorem c7_witness :
    detect_kind "/work/archive.bin" = "blob" ∧
    describe_file_call "/work/archive.bin" (.blobData 7 "ab12") 2 10 = .blobOutline 7 "ab12" ∧
    extract_section_call "/work/archive.bin" (.mapData tData) (.list []) 1 50
      = .raised "select not supported for blob" ∧
    replace_section_call "/work/archive.bin" (.blobData 7 "ab12") (.str "function:f") (.num 1)
      = .raised "replace not supported for blob" := by
  have h := c7_unknown_extension_blob "/work/archive.bin" (by decide)
  exact ⟨h.1, h.2.1 7 "ab12" 2 10, h.2.2.1 (.mapData tData) (.list []) 1 50,
    h.2.2.2 (.blobData 7 "ab12") (.str "function:f") (.num 1)⟩

theorem fnsu_repair (freshId : Nat) (l : List Message) :
    firstNonSystemIsUser (repairTurnOrder freshId l) = true := by
  induction l with
  | nil => rfl
  | cons m rest ih =>
    simp only [repairTurnOrder]
    by_cases hs : m.role = Role.system
    · rw [if_pos hs]
      simp only [firstNonSystemIsUser, if_pos hs]
      exact ih
    · rw [if_neg hs]
      by_cases hu : m.role = Role.user
      · rw [if_pos hu]
        simp [firstNonSystemIsUser, hs, hu]
      · rw [if_neg hu]
        simp [firstNonSystemIsUser]

theorem fnsu_filter (l : List Message) (p : Message → Bool)
    (hp : ∀ m ∈ l, (m.role = Role.user ∨ m.role = Role.system) → p m = true)
    (h : firstNonSystemIsUser l = true) :
    firstNonSystemIsUser (l.filter p) = true := by
  induction l with
  | nil => exact h
  | cons m rest ih =>
    simp only [firstNonSystemIsUser] at h
    by_cases hs : m.role = Role.system
    · rw [if_pos hs] at h
      rw [List.filter_cons_of_pos (hp m (List.mem_cons_self m rest) (Or.inr hs))]
      simp only [firstNonSystemIsUser, if_pos hs]
      exact ih (fun x hx hr => hp x (List.mem_cons_of_mem m hx) hr) h
    · rw [if_neg hs] at h
      have hu : m.role = Role.user := by simpa using h
      rw [List.filter_cons_of_pos (hp m (List.mem_cons_self m rest) (Or.inl hu))]
      simp [firstNonSystemIsUser, hs, hu]

theorem fnsu_exists_user (l : List Message) (h : firstNonSystemIsUser l = true)
    (hne : ∃ m ∈ l, m.role ≠ Role.system) : ∃ m ∈ l, m.role = Role.user := by
  induction l with
  | nil =>
    obtain ⟨m, hm, _⟩ := hne
    simp at hm
  | cons m rest ih =>
    simp only [firstNonSystemIsUser] at h
    by_cases hs : m.role = Role.system
    · rw [if_pos hs] at h
      have hne' : ∃ x ∈ rest, x.role ≠ Role.system := by
        obtain ⟨x, hx, hxr⟩ := hne
        rcases List.mem_cons.mp hx with rfl | hx'
        · exact absurd hs hxr
        · exact ⟨x, hx', hxr⟩
      obtain ⟨u, hu, hur⟩ := ih h hne'
      exact ⟨u, List.mem_cons_of_mem m hu, hur⟩
    · rw [if_neg hs] at h
      exact ⟨m, List.mem_cons_self m rest, by simpa using h⟩

theorem fnsu_append (l : List Message) (x : Message)
    (hne : ∃ m ∈ l, m.role = Role.user)
    (h : firstNonSystemIsUser l = true) :
    firstNonSystemIsUser (l ++ [x]) = true := by
  induction l with
  | nil =>
    obtain ⟨m, hm, _⟩ := hne
    simp at hm
  | cons m rest ih =>
    simp only [List.cons_append, firstNonSystemIsUser] at h ⊢
    by_cases hs : m.role = Role.system
    · rw [if_pos hs] at h ⊢
      refine ih ?_ h
      obtain ⟨u, hu, hur⟩ := hne
      rcases List.mem_cons.mp hu with rfl | hu'
      · rw [hur] at hs
        cases hs
      · exact ⟨u, hu', hur⟩
    · rw [if_neg hs] at h ⊢
      exact h

theorem enforce_cases (s : KernelState) (msgs : List Message) :
    enforce_stage_ttl s msgs = (s, msgs) ∨
    enforce_stage_ttl s msgs =
      ({ s with ephemeralEntries := []
                lastSummaryMessage := none
                promotedMessageIds := []
                importStage := "idle"
                importStageStartedAt := s.callIndex },
       msgs.filter isUserOrSystem) := by
  unfold enforce_stage_ttl
  split_ifs <;> first | exact Or.inl rfl | exact Or.inr rfl

theorem fnsu_prune (s : KernelState) (msgs : List Message)
    (hids : ∀ m ∈ msgs, (m.role = Role.user ∨ m.role = Role.system) →
        ∀ e ∈ s.ephemeralEntries, decide (e.expiresAt < (s.callIndex : Int)) = true →
          e.message.msgId ≠ m.msgId)
    (h2 : firstNonSystemIsUser msgs = true)
    (h3 : ∃ m ∈ msgs, m.role = Role.user) :
    firstNonSystemIsUser (prune_ephemeral s msgs).2 = true := by
  simp only [prune_ephemeral]
  set tr := ((s.ephemeralEntries.filter fun e =>
      decide (e.expiresAt < (s.callIndex : Int))).map fun e => e.message.msgId).dedup
    with htr
  by_cases he : tr.isEmpty
  · rw [if_pos he]
    exact h2
  · rw [if_neg he]
    have hq : ∀ m ∈ msgs, (m.role = Role.user ∨ m.role = Role.system) →
        (fun m => !decide (m.msgId ∈ tr)) m = true := by
      intro m hm hr
      simp only [Bool.not_eq_true', decide_eq_false_iff_not]
      intro hmem
      have hmem2 := List.mem_dedup.mp (htr ▸ hmem)
      obtain ⟨e, he', heq⟩ := List.mem_map.mp hmem2
      have he'' := List.mem_filter.mp he'
      exact hids m hm hr e he''.1 he''.2 heq
    have hfil := fnsu_filter msgs (fun m => !decide (m.msgId ∈ tr)) hq h2
    obtain ⟨u, hu, hur⟩ := h3
    exact fnsu_append _ _
      ⟨u, List.mem_filter.mpr ⟨hu, hq u hu (Or.inl hur)⟩, hur⟩ hfil

/-- C8 (amended): after every erase call that deletes at least one message,
the first non-system message of the resulting context (if any) is a user
message — the tool inserts a synthetic `user "[deleted]"` message when
deletion would violate this.  `begin_llm_call` performs no such repair; it
only PRESERVES the property, and only under the stated conditions: no
ephemeral entry tracks the identity of a user/system message of the context,
and the context holds some non-system message (otherwise a firing pruner
appends a policy notice whose function role becomes the first non-system
message — see the counterexample). -/
theorem c8_turn_order :
    (∀ (targets : List Target) (messages : List Message) (freshId : Nat),
        eraseDeletes targets messages = true →
        firstNonSystemIsUser (erase_call targets messages freshId) = true) ∧
    (∀ (s : KernelState) (messages : List Message),
        (∀ m ∈ messages, (m.role = Role.user ∨ m.role = Role.system) →
            ∀ e ∈ s.ephemeralEntries, e.message.msgId ≠ m.msgId) →
        firstNonSystemIsUser messages = true →
        (∃ m ∈ messages, m.role ≠ Role.system) →
        firstNonSystemIsUser (begin_llm_call s messages).2 = true) := by
  constructor
  · intro targets messages freshId h
    unfold erase_call
    rw [if_pos h]
    exact fnsu_repair freshId (eraseKept targets messages)
  · intro s messages h1 h2 h3
    obtain ⟨u, hu, hur⟩ := fnsu_exists_user messages h2 h3
    simp only [begin_llm_call]
    rcases enforce_cases { s with callIndex := s.callIndex + 1 } messages with he | he <;>
      rw [he]
    · -- no stage wipe: the pruner may fire, but expired entries all come from
      -- the pre-call table (fresh auto entries expire strictly later)
      apply fnsu_prune
      · intro m hm hr e hee hexp
        simp only [mark_default_ephemeral] at hee hexp
        rcases List.mem_append.mp hee with hold | hnew
        · exact h1 m hm hr e hold
        · have hx := markDefaultGo_expires (s.callIndex + 1) s.promotedMessageIds
            (s.ephemeralEntries.map fun e => e.message.msgId) messages e hnew
          rw [hx] at hexp
          simp only [decide_eq_true_eq] at hexp
          omega
      · exact h2
      · exact ⟨u, hu, hur⟩
    · -- stage wipe: only user/system messages remain and nothing is tracked
      apply fnsu_prune
      · intro m hm hr e hee hexp
        simp only [mark_default_ephemeral, List.map_nil, List.nil_append] at hee
        have hnil := markDefaultGo_nil (s.callIndex + 1) [] []
          (messages.filter isUserOrSystem)
          (fun x hx => Or.inl (List.mem_filter.mp hx).2)
        rw [hnil] at hee
        simp at hee
      · exact fnsu_filter messages isUserOrSystem
          (fun m _ hr => by simp [isUserOrSystem]; exact hr) h2
      · exact ⟨u, List.mem_filter.mpr ⟨hu, by simp [isUserOrSystem, hur]⟩, hur⟩

/-- C8 counterexample: a kernel whose only ephemeral entry is expired and
refers to a message no longer in the context (erase removes messages without
touching the ephemeral table): `begin_llm_call` on the context `[system]`
appends the policy notice, and the resulting first non-system message has
role `function`, not `user`. -/
theorem c8_counterexample :
    ((begin_llm_call c8State [wSys]).2.map fun m => roleToString m.role)
      = ["system", "function"] ∧
    firstNonSystemIsUser (begin_llm_call c8State [wSys]).2 = false :=
  ⟨rfl, rfl⟩

/-- C8 witness: the erase repair on the spec's scenario (deleting the first
user of `[system, user, assistant, user, assistant]`), and preservation
through a `begin_llm_call` whose pruner fires. -/
theorem c8_witness :
    firstNonSystemIsUser (erase_call [.index 1] [wSys, wUser, wAsst1, wUser2, wAsst2] 99)
      = true ∧
    firstNonSystemIsUser (begin_llm_call c8wState [wSys, wUser, wTool]).2 = true := by
  constructor
  · exact c8_turn_order.1 [.index 1] [wSys, wUser, wAsst1, wUser2, wAsst2] 99 (by decide)
  · refine c8_turn_order.2 c8wState [wSys, wUser, wTool] ?_ (by decide) ?_
    · intro m hm
      fin_cases hm <;> (intro hr e he; fin_cases he; revert hr; decide)
    · exact ⟨wUser, List.mem_cons_of_mem _ (List.mem_cons_self _ _), by decide⟩

end Metaboliq
